import Mathlib

/-!
Shallow embedding of the HTTP(S) fetch core of `tiny_browser.py`
(`browser_engine` package): connection pool, response cache, chunked
transfer decoding, body framing, redirect loop, data-URL handling.

Modelling conventions:
* byte strings are `List Nat` (each element a byte value 0..255);
* Python `str` values are Lean `String` / `List Char`;
* Python dicts are association lists (`dictGet`/`dictSet`/`dictDel`),
  observationally equivalent to dict get/set/del;
* `time.time()` is passed explicitly as a `Nat` parameter `t`;
* socket handles are identifiers (`Nat`); effects on them (close, pool
  membership) are tracked explicitly in a world record;
* a Python function that can raise an exception which the fetch core
  catches nowhere is modelled with an explicit outcome constructor.
-/

set_option maxHeartbeats 1000000

namespace TinyBrowser

/-- Association-list model of a Python dict: `m.get(k)`. -/
def dictGet {K V : Type} [DecidableEq K] (m : List (K × V)) (k : K) : Option V :=
  (m.find? (fun p => decide (p.1 = k))).map (fun p => p.2)

/-- Association-list model of `m[k] = v` (replaces any existing binding). -/
def dictSet {K V : Type} [DecidableEq K] (m : List (K × V)) (k : K) (v : V) : List (K × V) :=
  (k, v) :: m.filter (fun p => decide (¬ p.1 = k))

/-- Association-list model of `del m[k]`. -/
def dictDel {K V : Type} [DecidableEq K] (m : List (K × V)) (k : K) : List (K × V) :=
  m.filter (fun p => decide (¬ p.1 = k))

theorem dictGet_dictSet_self {K V : Type} [DecidableEq K]
    (m : List (K × V)) (k : K) (v : V) : dictGet (dictSet m k v) k = some v := by
  simp [dictGet, dictSet, List.find?]

/-- ASCII lower-casing of one character, as Python `str.lower` acts on ASCII. -/
def lowerChar (c : Char) : Char :=
  if 'A' ≤ c ∧ c ≤ 'Z' then Char.ofNat (c.toNat + 32) else c

/-- ASCII lower-casing of a string (header values in the source are ASCII). -/
def lowerAscii (s : String) : String := String.mk (s.data.map lowerChar)

/-- `headers_out.get(name, "")` on the parsed-header dict. -/
def hgetD (headers : List (String × String)) (name : String) : String :=
  (dictGet headers name).getD ""

/-!
## SimpleCache (`tiny_browser.py` lines 52-73)

`store` maps a url string to `(body_bytes, stored_time, max_age_seconds or None)`.
-/

structure SimpleCache where
  store : List (String × (List Nat × Nat × Option Int))
deriving DecidableEq

/-- `SimpleCache.get`: lazy-expiry read.  Returns the result of the lookup
together with the cache state after the call (an expired entry is deleted). -/
def SimpleCache.get (c : SimpleCache) (url : String) (t : Nat) :
    Option (List Nat) × SimpleCache :=
  match dictGet c.store url with
  | none => (none, c)
  | some (body, stored, maxAge) =>
    match maxAge with
    | none => (some body, c)
    | some a =>
      if (t : Int) - (stored : Int) ≤ a then (some body, c)
      else (none, ⟨dictDel c.store url⟩)

/-- `SimpleCache.set`: `store[url] = (body, now(), max_age)`. -/
def SimpleCache.set (c : SimpleCache) (url : String) (body : List Nat)
    (maxAge : Option Int) (t : Nat) : SimpleCache :=
  ⟨dictSet c.store url (body, t, maxAge)⟩

/-!
## ConnectionPool (`tiny_browser.py` lines 23-46) and socket effects

A `PoolWorld` tracks the pool map and which socket handles have been
closed so far, so leak/close behaviour is observable.
-/

abbrev Authority := String × String × Nat

structure PoolWorld where
  pool : List (Authority × (Nat × Nat))
  closed : List Nat

/-- `ConnectionPool.get`: returns the stored socket for the key, ignoring
the timestamp, without any liveness validation. -/
def ConnectionPool.get (w : PoolWorld) (scheme host : String) (port : Nat) : Option Nat :=
  (dictGet w.pool (scheme, host, port)).map (fun e => e.1)

/-- `ConnectionPool.set`: `pool[key] = (sock, now())`.  The source stores the
new socket without touching the previously stored one: `closed` is unchanged. -/
def ConnectionPool.set (w : PoolWorld) (scheme host : String) (port : Nat)
    (sock : Nat) (t : Nat) : PoolWorld :=
  { w with pool := dictSet w.pool (scheme, host, port) (sock, t) }

/-!
## Send phase of `URL._http_request` (`tiny_browser.py` lines 308-343)

The connect-and-send prologue: try a pooled socket, else create one; send;
on a send failure close the socket, create one fresh socket and resend.
The second `sendall` stands outside any `try`, so its failure raises.

`create i` is the result of the `i`-th call to `create_socket` during this
request (`none` models a connect failure, which `create_socket` turns into
a printed error and a `None` return).  `sendOk s` tells whether `sendall`
on socket `s` succeeds.  The returned list holds the sockets closed here.
-/

inductive SendOutcome
  | proceed (s : Nat)
  | failNone
  | uncaught
deriving DecidableEq, Repr

def sendPhase (pooled : Option Nat) (create : Nat → Option Nat)
    (sendOk : Nat → Bool) : SendOutcome × List Nat :=
  match pooled with
  | some s =>
    if sendOk s then (.proceed s, [])
    else
      match create 0 with
      | none => (.failNone, [s])
      | some s2 => if sendOk s2 then (.proceed s2, [s]) else (.uncaught, [s])
  | none =>
    match create 0 with
    | none => (.failNone, [])
    | some s =>
      if sendOk s then (.proceed s, [])
      else
        match create 1 with
        | none => (.failNone, [s])
        | some s2 => if sendOk s2 then (.proceed s2, [s]) else (.uncaught, [s])

/-!
## Byte-stream primitives (`rfile` operations)

The response stream is the byte sequence the peer delivers; `readline`
reads up to and including the next LF (or to the end), `read n` / the
`read_exact` loop take `min n remaining` bytes.
-/

/-- `rfile.readline()`: the line including its terminator, and the rest. -/
def readline : List Nat → List Nat × List Nat
  | [] => ([], [])
  | b :: rest =>
    if b = 10 then ([10], rest)
    else
      let p := readline rest
      (b :: p.1, p.2)

/-- Python `bytes.strip` whitespace set. -/
def isSpaceByte (b : Nat) : Bool := b = 9 || b = 10 || b = 11 || b = 12 || b = 13 || b = 32

/-- `bytes.strip()`: drop ASCII whitespace from both ends. -/
def stripBytes (l : List Nat) : List Nat :=
  ((l.dropWhile isSpaceByte).reverse.dropWhile isSpaceByte).reverse

/-!
## `int(line, 16)`: Python hexadecimal integer parsing

Grammar accepted by Python for base 16: surrounding whitespace (already
stripped here), an optional sign, an optional `0x`/`0X` prefix (an
underscore may directly follow the prefix), then hex digits separated by
optional single underscores.
-/

def isHexDigitB (b : Nat) : Bool :=
  (48 ≤ b && b ≤ 57) || (97 ≤ b && b ≤ 102) || (65 ≤ b && b ≤ 70)

def hexValB (b : Nat) : Nat :=
  if b ≤ 57 then b - 48 else if b ≤ 70 then b - 55 else b - 87

/-- Digits after the first one: a hex digit extends the accumulator, an
underscore must be followed by a hex digit, anything else is an error. -/
def parseHexGo (acc : Nat) : List Nat → Option Nat
  | [] => some acc
  | c :: rest =>
    if isHexDigitB c then parseHexGo (16 * acc + hexValB c) rest
    else if c = 95 then
      match rest with
      | [] => none
      | d :: r2 => if isHexDigitB d then parseHexGo (16 * acc + hexValB d) r2 else none
    else none

/-- A nonempty run of hex digits with optional medial underscores. -/
def parseHexDigits : List Nat → Option Nat
  | [] => none
  | c :: rest => if isHexDigitB c then parseHexGo (hexValB c) rest else none

/-- Body after the optional sign: optional `0x`/`0X` prefix. -/
def parseHexBody (l : List Nat) : Option Nat :=
  match l with
  | c1 :: c2 :: rest =>
    if c1 = 48 ∧ (c2 = 120 ∨ c2 = 88) then
      match rest with
      | 95 :: r2 => parseHexDigits r2
      | r => parseHexDigits r
    else parseHexDigits l
  | l => parseHexDigits l

/-- `int(line, 16)` on a byte string, `none` when Python raises `ValueError`.
A leading `+`/`-` byte is the sign; an empty string parses to nothing
(`parseHexBody [] = none`). -/
def parsePyHexInt (l0 : List Nat) : Option Int :=
  let l := stripBytes l0
  if l.head? = some 43 then (parseHexBody l.tail).map (fun n => (n : Int))
  else if l.head? = some 45 then (parseHexBody l.tail).map (fun n => -(n : Int))
  else (parseHexBody l).map (fun n => (n : Int))

/-!
## `decode_chunked` (`tiny_browser.py` lines 91-131)
-/

/-- Strip the size line and drop a `;`-delimited chunk extension. -/
def processSizeLine (line : List Nat) : List Nat :=
  let l := stripBytes line
  if l.contains 59 then l.takeWhile (fun b => decide (¬ b = 59)) else l

/-- Trailer loop after the zero-size chunk: discard lines until a blank
line (or stream end); returns the remaining stream. -/
def readTrailers : Nat → List Nat → List Nat
  | 0, s => s
  | fuel + 1, s =>
    let p := readline s
    if p.1 = [] ∨ p.1 = [13, 10] ∨ p.1 = [10] then p.2
    else readTrailers fuel p.2

/-- One `while True` pass of `decode_chunked`.  The accumulator is the
`BytesIO` body; the result also carries the unconsumed stream.  Errors
carry the offending size line (`RuntimeError("Bad chunk size: ...")`).
The fuel only bounds the loop; `s.length + 1` is always enough because
every iteration consumes at least one byte. -/
def decodeChunkedAux : Nat → List Nat → List Nat → Except (List Nat) (List Nat × List Nat)
  | 0, _, _ => Except.error [102, 117, 101, 108]
  | fuel + 1, s, acc =>
    let p := readline s
    if p.1 = [] then Except.ok (acc, p.2)
    else
      let szl := processSizeLine p.1
      match parsePyHexInt szl with
      | none => Except.error szl
      | some size =>
        if size = 0 then Except.ok (acc, readTrailers (p.2.length + 1) p.2)
        else
          let data := p.2.take size.toNat
          let rest2 := (p.2.drop size.toNat).drop 2
          decodeChunkedAux fuel rest2 (acc ++ data)

/-- `decode_chunked(rfile)`: the decoded body, or the decode error. -/
def decode_chunked (s : List Nat) : Except (List Nat) (List Nat) :=
  (decodeChunkedAux (s.length + 1) s []).map (fun r => r.1)

/-!
## A chunked-transfer encoder (for the round-trip statement)

`encodeChunked` produces a canonical valid chunked stream: each chunk is
its size in lowercase hex, CRLF, the data, CRLF; the stream ends with the
zero-size chunk and the blank trailer line.
-/

def hexChar (n : Nat) : Nat := if n < 10 then 48 + n else 87 + n

def natToHexAux : Nat → Nat → List Nat
  | 0, _ => []
  | fuel + 1, n =>
    if n < 16 then [hexChar n] else natToHexAux fuel (n / 16) ++ [hexChar (n % 16)]

def natToHex (n : Nat) : List Nat := natToHexAux (n + 1) n

def encodeChunk (c : List Nat) : List Nat := natToHex c.length ++ [13, 10] ++ c ++ [13, 10]

def encodeBody (chunks : List (List Nat)) : List Nat := (chunks.map encodeChunk).flatten

def chunkTerm : List Nat := [48, 13, 10, 13, 10]

def encodeChunked (chunks : List (List Nat)) : List Nat := encodeBody chunks ++ chunkTerm

/-! ### Lemmas about the stream primitives -/

theorem readline_append (pre rest : List Nat) (h : ∀ c ∈ pre, c ≠ 10) :
    readline (pre ++ 10 :: rest) = (pre ++ [10], rest) := by
  induction pre with
  | nil => simp [readline]
  | cons b bs ih =>
    have hb : b ≠ 10 := h b (List.mem_cons_self _ _)
    have ih' := ih (fun c hc => h c (List.mem_cons_of_mem _ hc))
    simp [readline, hb, ih']

theorem readline_ne_nil (s : List Nat) (h : s ≠ []) : (readline s).1 ≠ [] := by
  cases s with
  | nil => exact absurd rfl h
  | cons b rest =>
    simp only [readline]
    split <;> simp

theorem dropWhile_eq_self_of {α : Type} (p : α → Bool) (l : List α)
    (h : ∀ c ∈ l, p c = false) : l.dropWhile p = l := by
  cases l with
  | nil => rfl
  | cons a t => simp [List.dropWhile_cons, h a (List.mem_cons_self _ _)]

theorem takeWhile_eq_self_of {α : Type} (p : α → Bool) (l : List α)
    (h : ∀ c ∈ l, p c = true) : l.takeWhile p = l := by
  induction l with
  | nil => rfl
  | cons a t ih =>
    simp [List.takeWhile_cons, h a (List.mem_cons_self _ _),
      ih (fun c hc => h c (List.mem_cons_of_mem _ hc))]

theorem stripBytes_eq_self (l : List Nat) (h : ∀ c ∈ l, isSpaceByte c = false) :
    stripBytes l = l := by
  unfold stripBytes
  rw [dropWhile_eq_self_of _ _ h,
    dropWhile_eq_self_of _ _ (fun c hc => h c (List.mem_reverse.mp hc)),
    List.reverse_reverse]

theorem stripBytes_append_crlf (l : List Nat) (h : ∀ c ∈ l, isSpaceByte c = false) :
    stripBytes (l ++ [13, 10]) = l := by
  cases l with
  | nil => rfl
  | cons a t =>
    have ha : isSpaceByte a = false := h a (List.mem_cons_self _ _)
    unfold stripBytes
    rw [show List.dropWhile isSpaceByte (a :: t ++ [13, 10]) = a :: (t ++ [13, 10]) by
      simp [List.dropWhile_cons, ha]]
    rw [show (a :: (t ++ [13, 10])).reverse = 10 :: 13 :: (a :: t).reverse by simp]
    rw [show List.dropWhile isSpaceByte (10 :: 13 :: (a :: t).reverse)
        = List.dropWhile isSpaceByte (a :: t).reverse by
      simp [List.dropWhile_cons, show isSpaceByte 10 = true from rfl,
        show isSpaceByte 13 = true from rfl]]
    rw [dropWhile_eq_self_of _ _ (fun c hc => h c (List.mem_reverse.mp hc)),
      List.reverse_reverse]

/-! ### Lemmas about hex digits and the hex parser -/

theorem hexChar_isHexDigit {n : Nat} (h : n < 16) : isHexDigitB (hexChar n) = true := by
  unfold hexChar isHexDigitB
  split <;>
    (simp only [Bool.or_eq_true, Bool.and_eq_true, decide_eq_true_eq]; omega)

theorem hexValB_hexChar {n : Nat} (h : n < 16) : hexValB (hexChar n) = n := by
  unfold hexChar hexValB
  split <;> (repeat' split) <;> omega

theorem natToHexAux_all_digits :
    ∀ (fuel n : Nat), ∀ c ∈ natToHexAux fuel n, isHexDigitB c = true := by
  intro fuel
  induction fuel with
  | zero => intro n c hc; simp [natToHexAux] at hc
  | succ f ih =>
    intro n c hc
    unfold natToHexAux at hc
    by_cases h : n < 16
    · rw [if_pos h] at hc
      simp only [List.mem_singleton] at hc
      subst hc; exact hexChar_isHexDigit h
    · rw [if_neg h] at hc
      rcases List.mem_append.mp hc with h1 | h1
      · exact ih _ _ h1
      · simp only [List.mem_singleton] at h1
        subst h1; exact hexChar_isHexDigit (Nat.mod_lt _ (by norm_num))

theorem natToHexAux_ne_nil {fuel n : Nat} (h : 0 < fuel) : natToHexAux fuel n ≠ [] := by
  cases fuel with
  | zero => omega
  | succ f =>
    unfold natToHexAux
    split <;> simp

theorem hexDigit_props {c : Nat} (h : isHexDigitB c = true) :
    isSpaceByte c = false ∧ c ≠ 10 ∧ c ≠ 59 ∧ c ≠ 43 ∧ c ≠ 45 ∧ c ≠ 120 ∧ c ≠ 88 := by
  simp only [isHexDigitB, Bool.or_eq_true, Bool.and_eq_true, decide_eq_true_eq] at h
  simp only [isSpaceByte, Bool.or_eq_false_iff, decide_eq_false_iff_not, ne_eq]
  omega

theorem parseHexGo_all_digits :
    ∀ (l : List Nat) (acc : Nat), (∀ c ∈ l, isHexDigitB c = true) →
      parseHexGo acc l = some (l.foldl (fun a c => 16 * a + hexValB c) acc) := by
  intro l
  induction l with
  | nil => intro acc _; rfl
  | cons c rest ih =>
    intro acc h
    have hc := h c (List.mem_cons_self _ _)
    have ih' := ih (16 * acc + hexValB c) (fun x hx => h x (List.mem_cons_of_mem _ hx))
    rw [parseHexGo.eq_def]
    simp only [hc, if_true, List.foldl_cons]
    exact ih'

theorem foldl_natToHexAux :
    ∀ (fuel n acc : Nat), n < fuel →
      (natToHexAux fuel n).foldl (fun a c => 16 * a + hexValB c) acc
        = acc * 16 ^ (natToHexAux fuel n).length + n := by
  intro fuel
  induction fuel with
  | zero => intro n acc h; omega
  | succ f ih =>
    intro n acc h
    by_cases h16 : n < 16
    · unfold natToHexAux
      rw [if_pos h16]
      simp [hexValB_hexChar h16]
      ring
    · have hd : n / 16 < f := by
        have h1 : n / 16 < n := Nat.div_lt_self (by omega) (by norm_num)
        omega
      unfold natToHexAux
      rw [if_neg h16, List.foldl_append, ih (n / 16) acc hd]
      simp only [List.foldl_cons, List.foldl_nil, hexValB_hexChar (Nat.mod_lt n (by norm_num)),
        List.length_append, List.length_cons, List.length_nil]
      generalize (natToHexAux f (n / 16)).length = L
      rw [show L + (0 + 1) = L + 1 by omega, pow_succ]
      generalize (16 : Nat) ^ L = T
      have hmod : 16 * (n / 16) + n % 16 = n := Nat.div_add_mod n 16
      ring_nf
      omega

theorem parseHexDigits_natToHex (n : Nat) : parseHexDigits (natToHex n) = some n := by
  have hne : natToHex n ≠ [] := natToHexAux_ne_nil (by omega)
  have hall : ∀ x ∈ natToHex n, isHexDigitB x = true :=
    fun x hx => natToHexAux_all_digits _ _ x hx
  have hfold := foldl_natToHexAux (n + 1) n 0 (by omega)
  obtain ⟨c, rest, hcr⟩ := List.exists_cons_of_ne_nil hne
  have hc : isHexDigitB c = true := hall c (by rw [hcr]; exact List.mem_cons_self _ _)
  unfold natToHex at hcr hfold ⊢
  rw [hcr] at hfold ⊢
  simp only [parseHexDigits, hc, if_true]
  rw [parseHexGo_all_digits rest (hexValB c)
    (fun x hx => hall x (by unfold natToHex; rw [hcr]; exact List.mem_cons_of_mem _ hx))]
  simp only [List.foldl_cons] at hfold
  rw [show 16 * 0 + hexValB c = hexValB c by omega] at hfold
  rw [hfold]
  simp

theorem parseHexBody_digits (l : List Nat) (hne : l ≠ [])
    (h : ∀ c ∈ l, isHexDigitB c = true) : parseHexBody l = parseHexDigits l := by
  match l with
  | [] => exact absurd rfl hne
  | [c] => rfl
  | c1 :: c2 :: rest =>
    have h2 := hexDigit_props (h c2 (by simp))
    simp only [parseHexBody]
    rw [if_neg]
    rintro ⟨_, h88⟩
    rcases h88 with h88 | h88
    · exact h2.2.2.2.2.2.1 h88
    · exact h2.2.2.2.2.2.2 h88

theorem parsePyHexInt_natToHex (n : Nat) : parsePyHexInt (natToHex n) = some (n : Int) := by
  have hne : natToHex n ≠ [] := natToHexAux_ne_nil (by omega)
  have hall : ∀ x ∈ natToHex n, isHexDigitB x = true :=
    fun x hx => natToHexAux_all_digits _ _ x hx
  have hs : stripBytes (natToHex n) = natToHex n :=
    stripBytes_eq_self _ (fun c hc => (hexDigit_props (hall c hc)).1)
  obtain ⟨c, rest, hcr⟩ := List.exists_cons_of_ne_nil hne
  have hprops := hexDigit_props (hall c (by rw [hcr]; exact List.mem_cons_self _ _))
  have h43 : ¬ ((natToHex n).head? = some 43) := by
    rw [hcr]; simp only [List.head?_cons, Option.some.injEq]; exact hprops.2.2.2.1
  have h45 : ¬ ((natToHex n).head? = some 45) := by
    rw [hcr]; simp only [List.head?_cons, Option.some.injEq]; exact hprops.2.2.2.2.1
  unfold parsePyHexInt
  simp only [hs]
  rw [if_neg h43, if_neg h45]
  rw [parseHexBody_digits _ hne hall, parseHexDigits_natToHex]
  rfl

/-! ### `decode_chunked` on encoder output -/

theorem processSizeLine_digits (l : List Nat) (h : ∀ c ∈ l, isHexDigitB c = true) :
    processSizeLine (l ++ [13, 10]) = l := by
  unfold processSizeLine
  rw [stripBytes_append_crlf l (fun c hc => (hexDigit_props (h c hc)).1)]
  dsimp only
  split
  · exact takeWhile_eq_self_of _ _ (fun c hc => by
      simp only [decide_eq_true_eq]
      exact (hexDigit_props (h c hc)).2.2.1)
  · rfl

theorem one_le_length_encodeChunk (c : List Nat) : 1 ≤ (encodeChunk c).length := by
  unfold encodeChunk
  simp
  omega

theorem length_le_encodeBody :
    ∀ chunks : List (List Nat), chunks.length ≤ (encodeBody chunks).length := by
  intro chunks
  induction chunks with
  | nil => simp [encodeBody]
  | cons c cs ih =>
    have h1 := one_le_length_encodeChunk c
    unfold encodeBody at ih ⊢
    simp only [List.map_cons, List.flatten_cons, List.length_append, List.length_cons]
    omega

theorem decodeAux_encodeBody :
    ∀ (chunks : List (List Nat)) (rest acc : List Nat) (fuel : Nat),
      (∀ c ∈ chunks, c ≠ []) → chunks.length < fuel →
      decodeChunkedAux fuel (encodeBody chunks ++ rest) acc
        = decodeChunkedAux (fuel - chunks.length) rest (acc ++ chunks.flatten) := by
  intro chunks
  induction chunks with
  | nil => intro rest acc fuel _ _; simp [encodeBody]
  | cons c cs ih =>
    intro rest acc fuel hne hfuel
    obtain ⟨f, rfl⟩ : ∃ f, fuel = f + 1 := ⟨fuel - 1, by omega⟩
    have hcne : c ≠ [] := hne c (List.mem_cons_self _ _)
    have halld : ∀ x ∈ natToHex c.length, isHexDigitB x = true :=
      fun x hx => natToHexAux_all_digits _ _ x hx
    have hpre : ∀ x ∈ natToHex c.length ++ [13], x ≠ 10 := by
      intro x hx
      rcases List.mem_append.mp hx with h1 | h1
      · exact (hexDigit_props (halld x h1)).2.1
      · simp only [List.mem_singleton] at h1; omega
    have hstream : encodeBody (c :: cs) ++ rest
        = (natToHex c.length ++ [13]) ++ 10 :: (c ++ 13 :: 10 :: (encodeBody cs ++ rest)) := by
      simp [encodeBody, encodeChunk]
    have hrl := readline_append (natToHex c.length ++ [13])
      (c ++ 13 :: 10 :: (encodeBody cs ++ rest)) hpre
    have hlnn : ¬ ((natToHex c.length ++ [13]) ++ [10] = ([] : List Nat)) := by simp
    have hps : processSizeLine ((natToHex c.length ++ [13]) ++ [10]) = natToHex c.length := by
      rw [List.append_assoc]
      exact processSizeLine_digits _ halld
    have hsz : ¬ ((c.length : Int) = 0) := by
      intro h0
      exact hcne (List.length_eq_zero.mp (by exact_mod_cast h0))
    have htn : ((c.length : Int)).toNat = c.length := Int.toNat_natCast _
    have htake : (c ++ 13 :: 10 :: (encodeBody cs ++ rest)).take c.length = c := by
      exact List.take_left c (13 :: 10 :: (encodeBody cs ++ rest))
    have hdrop : ((c ++ 13 :: 10 :: (encodeBody cs ++ rest)).drop c.length).drop 2
        = encodeBody cs ++ rest := by
      rw [show (c ++ 13 :: 10 :: (encodeBody cs ++ rest)).drop c.length
          = 13 :: 10 :: (encodeBody cs ++ rest) by
        exact List.drop_left c (13 :: 10 :: (encodeBody cs ++ rest))]
      rfl
    have ihh := ih rest (acc ++ c) f
      (fun x hx => hne x (List.mem_cons_of_mem _ hx))
      (by simp only [List.length_cons] at hfuel; omega)
    rw [hstream, decodeChunkedAux.eq_def]
    simp only [hrl, if_neg hlnn, hps, parsePyHexInt_natToHex, if_neg hsz, htn, htake, hdrop]
    rw [ihh]
    simp only [List.length_cons, List.flatten_cons, List.append_assoc]
    rw [show f + 1 - (cs.length + 1) = f - cs.length by omega]

theorem decodeAux_chunkTerm (acc : List Nat) (f : Nat) :
    decodeChunkedAux (f + 1) chunkTerm acc = Except.ok (acc, []) := by
  have e1 : readline chunkTerm = ([48, 13, 10], [13, 10]) := rfl
  have e2 : processSizeLine [48, 13, 10] = [48] := rfl
  have e3 : parsePyHexInt [48] = some 0 := rfl
  have e4 : readTrailers ([13, 10] : List Nat).length.succ [13, 10] = [] := rfl
  rw [decodeChunkedAux.eq_def]
  simp only [e1, e2, e3]
  norm_num
  rfl

theorem decode_chunked_encodeChunked (chunks : List (List Nat))
    (h : ∀ c ∈ chunks, c ≠ []) :
    decode_chunked (encodeChunked chunks) = Except.ok chunks.flatten := by
  unfold decode_chunked encodeChunked
  have hb := length_le_encodeBody chunks
  have hlen : chunks.length < (encodeBody chunks ++ chunkTerm).length + 1 := by
    rw [List.length_append]; omega
  rw [decodeAux_encodeBody chunks chunkTerm [] _ h hlen]
  obtain ⟨f, hf⟩ :
      ∃ f, (encodeBody chunks ++ chunkTerm).length + 1 - chunks.length = f + 1 := by
    refine ⟨(encodeBody chunks ++ chunkTerm).length - chunks.length, ?_⟩
    rw [List.length_append]; omega
  rw [hf, decodeAux_chunkTerm]
  rfl

theorem decode_chunked_badSizeLine (chunks : List (List Nat)) (s : List Nat)
    (h : ∀ c ∈ chunks, c ≠ []) (hs : s ≠ [])
    (hbad : parsePyHexInt (processSizeLine (readline s).1) = none) :
    decode_chunked (encodeBody chunks ++ s) = Except.error (processSizeLine (readline s).1) := by
  unfold decode_chunked
  have hb := length_le_encodeBody chunks
  have hlen : chunks.length < (encodeBody chunks ++ s).length + 1 := by
    rw [List.length_append]; omega
  rw [decodeAux_encodeBody chunks s [] _ h hlen]
  obtain ⟨f, hf⟩ : ∃ f, (encodeBody chunks ++ s).length + 1 - chunks.length = f + 1 := by
    refine ⟨(encodeBody chunks ++ s).length - chunks.length, ?_⟩
    rw [List.length_append]; omega
  rw [hf, decodeChunkedAux.eq_def]
  simp only [if_neg (readline_ne_nil s hs), hbad]
  rfl

/-- C4: encoding any byte sequence as a valid chunked stream (zero, one or
many nonempty hex-size-prefixed chunks, zero-size terminator) and decoding
with `decode_chunked` recovers the bytes exactly; and a stream whose first
size line does not parse as hexadecimal makes `decode_chunked` fail with a
terminal decode error (the `RuntimeError` carrying the offending line). -/
theorem chunked_roundtrip_and_bad_size_is_error :
    (∀ chunks : List (List Nat), (∀ c ∈ chunks, c ≠ []) →
      decode_chunked (encodeChunked chunks) = Except.ok chunks.flatten) ∧
    (∀ (chunks : List (List Nat)) (s : List Nat), (∀ c ∈ chunks, c ≠ []) → s ≠ [] →
      parsePyHexInt (processSizeLine (readline s).1) = none →
      ∃ e, decode_chunked (encodeBody chunks ++ s) = Except.error e) :=
  ⟨decode_chunked_encodeChunked,
   fun chunks s h hs hbad => ⟨_, decode_chunked_badSizeLine chunks s h hs hbad⟩⟩

/-- C4 witness: a two-chunk stream round-trips to `b"Wikipedia"`, the
empty sequence round-trips through the bare terminator, and the stream
`b"X\r\n"` (size line not hexadecimal) is a decode error. -/
theorem chunked_roundtrip_and_bad_size_is_error_witness :
    decode_chunked (encodeChunked [[87, 105, 107, 105], [112, 101, 100, 105, 97]])
        = Except.ok [87, 105, 107, 105, 112, 101, 100, 105, 97] ∧
    decode_chunked (encodeChunked []) = Except.ok [] ∧
    ∃ e, decode_chunked (encodeBody [] ++ [88, 13, 10]) = Except.error e :=
  ⟨chunked_roundtrip_and_bad_size_is_error.1
      [[87, 105, 107, 105], [112, 101, 100, 105, 97]] (by decide),
   chunked_roundtrip_and_bad_size_is_error.1 [] (by decide),
   chunked_roundtrip_and_bad_size_is_error.2 [] [88, 13, 10] (by decide) (by decide)
      (by decide)⟩

/-!
## `int(val)`: Python base-10 integer parsing on strings
-/

/-- Python `str.strip` whitespace (ASCII fragment). -/
def isSpaceChar (c : Char) : Bool :=
  c = ' ' || c = '\t' || c = '\n' || c = '\r' || c.toNat = 11 || c.toNat = 12

def stripChars (l : List Char) : List Char :=
  ((l.dropWhile isSpaceChar).reverse.dropWhile isSpaceChar).reverse

def isDecDigitC (c : Char) : Bool := '0' ≤ c && c ≤ '9'

def decValC (c : Char) : Nat := c.toNat - 48

def parseDecGo (acc : Nat) : List Char → Option Nat
  | [] => some acc
  | c :: rest =>
    if isDecDigitC c then parseDecGo (10 * acc + decValC c) rest
    else if c = '_' then
      match rest with
      | [] => none
      | d :: r2 => if isDecDigitC d then parseDecGo (10 * acc + decValC d) r2 else none
    else none

def parseDecDigits : List Char → Option Nat
  | [] => none
  | c :: rest => if isDecDigitC c then parseDecGo (decValC c) rest else none

/-- `int(val)` on a Python string: optional whitespace and sign, then
decimal digits with optional medial underscores; `none` when Python
raises `ValueError`. -/
def parsePyDecInt (l0 : List Char) : Option Int :=
  let l := stripChars l0
  if l.head? = some '+' then (parseDecDigits l.tail).map (fun n => (n : Int))
  else if l.head? = some '-' then (parseDecDigits l.tail).map (fun n => -(n : Int))
  else (parseDecDigits l).map (fun n => (n : Int))

/-!
## Body framing of `URL._http_request` (`tiny_browser.py` lines 372-386)
-/

/-- Body framing selection: chunked transfer decoding when the
`Transfer-Encoding` value lower-cases to `chunked`; else an exact
`Content-Length` read (`read_exact`, i.e. `take` on the delivered
stream), falling back to reading the whole stream when `int()` raises;
else read until EOF (the whole delivered stream). -/
def readBody (headers : List (String × String)) (stream : List Nat) :
    Except (List Nat) (List Nat) :=
  if lowerAscii (hgetD headers "transfer-encoding") = "chunked" then
    decode_chunked stream
  else if (dictGet headers "content-length").isSome then
    match parsePyDecInt ((dictGet headers "content-length").getD "").data with
    | some clen => Except.ok (stream.take clen.toNat)
    | none => Except.ok stream
  else Except.ok stream

/-- Case-insensitive (ASCII) string equality, as the spec states it. -/
@[reducible] def ciEqAscii (a b : String) : Prop := lowerAscii a = lowerAscii b

/-- C5: body framing precedence.  (1) a `Transfer-Encoding` value
case-insensitively equal to `chunked` selects chunk decoding; else
(2) a present, integer-parseable `Content-Length` reads exactly that many
bytes, an unparsable one falls back to reading until stream end; else
(3) the body is the whole stream up to EOF. -/
theorem body_framing_precedence (headers : List (String × String)) (stream : List Nat) :
    (ciEqAscii (hgetD headers "transfer-encoding") "chunked" →
      readBody headers stream = decode_chunked stream) ∧
    (¬ ciEqAscii (hgetD headers "transfer-encoding") "chunked" →
      ∀ v : String, dictGet headers "content-length" = some v →
        (∀ n : Int, parsePyDecInt v.data = some n →
          readBody headers stream = Except.ok (stream.take n.toNat)) ∧
        (parsePyDecInt v.data = none → readBody headers stream = Except.ok stream)) ∧
    (¬ ciEqAscii (hgetD headers "transfer-encoding") "chunked" →
      dictGet headers "content-length" = none →
      readBody headers stream = Except.ok stream) := by
  have hlc : lowerAscii "chunked" = "chunked" := rfl
  refine ⟨?_, ?_, ?_⟩
  · intro hci
    unfold ciEqAscii at hci
    rw [hlc] at hci
    unfold readBody
    rw [if_pos hci]
  · intro hci v hv
    have hne : ¬ (lowerAscii (hgetD headers "transfer-encoding") = "chunked") := by
      intro h; exact hci (by unfold ciEqAscii; rw [hlc, h])
    constructor
    · intro n hn
      unfold readBody
      rw [if_neg hne, hv]
      simp only [Option.isSome_some, if_pos, Option.getD_some]
      rw [hn]
    · intro hn
      unfold readBody
      rw [if_neg hne, hv]
      simp only [Option.isSome_some, if_pos, Option.getD_some]
      rw [hn]
  · intro hci hv
    have hne : ¬ (lowerAscii (hgetD headers "transfer-encoding") = "chunked") := by
      intro h; exact hci (by unfold ciEqAscii; rw [hlc, h])
    unfold readBody
    rw [if_neg hne, hv]
    simp

/-- C5 witness: `Content-Length: 4` takes four bytes; an uppercase
`Transfer-Encoding: Chunked` selects chunk decoding. -/
theorem body_framing_precedence_witness :
    readBody [("content-length", "4")] [1, 2, 3, 4, 5] = Except.ok [1, 2, 3, 4] ∧
    readBody [("transfer-encoding", "Chunked")] [48, 13, 10, 13, 10]
      = decode_chunked [48, 13, 10, 13, 10] :=
  ⟨((body_framing_precedence [("content-length", "4")] [1, 2, 3, 4, 5]).2.1
      (by decide) "4" (by decide)).1 4 (by decide),
   (body_framing_precedence [("transfer-encoding", "Chunked")] [48, 13, 10, 13, 10]).1
      (by decide)⟩

/-!
## Claims C1, C2, C3, C9: send retry, cache expiry, pool replacement,
connection disposition
-/

/-- C1: evaluated at a pooled socket (id 1) whose send fails while the
single fresh socket (id 2) also fails to send: the phase closes the
pooled socket, opens one fresh socket, retries once, and then the second
`sendall` — standing outside any `try` — raises out of `_http_request`
(`uncaught`), instead of returning a failure result; when instead the
reconnect itself fails, the phase does return the terminal `None`. -/
theorem sendPhase_double_failure_uncaught :
    sendPhase (some 1) (fun _ => some 2) (fun _ => false) = (.uncaught, [1]) ∧
    sendPhase (some 1) (fun _ => none) (fun _ => false) = (.failNone, [1]) := by
  decide

/-- C2 counterexample: an entry stored with `maxAge = 5` at time 0 and
read at time 5 (elapsed time equal to `maxAge`) still returns the body;
the claim says elapsed `>= N` must be a miss. -/
theorem cache_expiry_at_boundary_counterexample :
    ((5 : Int) - (0 : Int) ≥ 5) ∧
    (SimpleCache.get (SimpleCache.set ⟨[]⟩ "u" [7] (some 5) 0) "u" 5).1 = some [7] := by
  decide

/-- C2 (amended): a read at elapsed time `<= N` (in particular `< N`)
returns the stored body and leaves the cache unchanged; a read at
elapsed time strictly greater than `N` deletes the entry and reports a
miss; an entry with `maxAge = none` is returned at any elapsed time. -/
theorem cache_expiry_amended (c : SimpleCache) (url : String) (body : List Nat)
    (N : Int) (t0 t : Nat) :
    ((t : Int) - (t0 : Int) < N →
      SimpleCache.get (SimpleCache.set c url body (some N) t0) url t
        = (some body, SimpleCache.set c url body (some N) t0)) ∧
    ((t : Int) - (t0 : Int) ≤ N →
      SimpleCache.get (SimpleCache.set c url body (some N) t0) url t
        = (some body, SimpleCache.set c url body (some N) t0)) ∧
    (N < (t : Int) - (t0 : Int) →
      SimpleCache.get (SimpleCache.set c url body (some N) t0) url t
        = (none, ⟨dictDel (SimpleCache.set c url body (some N) t0).store url⟩)) ∧
    SimpleCache.get (SimpleCache.set c url body none t0) url t
      = (some body, SimpleCache.set c url body none t0) := by
  have hgS : dictGet (SimpleCache.set c url body (some N) t0).store url
      = some (body, t0, some N) := dictGet_dictSet_self _ _ _
  have hgN : dictGet (SimpleCache.set c url body none t0).store url
      = some (body, t0, none) := dictGet_dictSet_self _ _ _
  refine ⟨?_, ?_, ?_, ?_⟩
  · intro h
    unfold SimpleCache.get
    rw [hgS]
    exact if_pos (le_of_lt h)
  · intro h
    unfold SimpleCache.get
    rw [hgS]
    exact if_pos h
  · intro h
    unfold SimpleCache.get
    rw [hgS]
    exact if_neg (not_le.mpr h)
  · unfold SimpleCache.get
    rw [hgN]

/-- C2 amended witness: stored with `maxAge = 5` at time 0, read fresh at
time 3 and expired at time 6. -/
theorem cache_expiry_amended_witness :
    SimpleCache.get (SimpleCache.set ⟨[]⟩ "u" [1] (some 5) 0) "u" 3
      = (some [1], SimpleCache.set ⟨[]⟩ "u" [1] (some 5) 0) ∧
    SimpleCache.get (SimpleCache.set ⟨[]⟩ "u" [1] (some 5) 0) "u" 6
      = (none, ⟨dictDel (SimpleCache.set ⟨[]⟩ "u" [1] (some 5) 0).store "u"⟩) :=
  ⟨(cache_expiry_amended ⟨[]⟩ "u" [1] 5 0 3).1 (by decide),
   (cache_expiry_amended ⟨[]⟩ "u" [1] 5 0 6).2.2.1 (by decide)⟩

/-- C3: evaluated at a pool that already holds socket 1 for the authority
`(http, example.org, 80)`, `ConnectionPool.set` of socket 2 replaces the
entry but closes nothing: afterwards the pool tracks socket 2 only, and
socket 1 is neither tracked nor recorded closed — it is silently
orphaned, contradicting the close-before-replace requirement. -/
theorem connectionPool_set_orphans_replaced :
    (ConnectionPool.set ⟨[(("http", "example.org", 80), (1, 0))], []⟩
        "http" "example.org" 80 2 7).closed = [] ∧
    ConnectionPool.get (ConnectionPool.set ⟨[(("http", "example.org", 80), (1, 0))], []⟩
        "http" "example.org" 80 2 7) "http" "example.org" 80 = some 2 ∧
    ∀ e ∈ (ConnectionPool.set ⟨[(("http", "example.org", 80), (1, 0))], []⟩
        "http" "example.org" 80 2 7).pool, e.2.1 ≠ 1 := by
  decide

/-- Connection disposition of `_http_request` (lines 405-416): when the
response's `Connection` header (or `Proxy-Connection`) lower-cases to
`close`, the socket is closed and — as the source's comment admits —
the pool entry is not removed; otherwise the socket is stored in the
pool keyed by the authority. -/
def connDisposition (w : PoolWorld) (scheme host : String) (port : Nat)
    (sock : Nat) (headers : List (String × String)) (t : Nat) : PoolWorld :=
  if lowerAscii (hgetD headers "connection") = "close"
      ∨ lowerAscii (hgetD headers "proxy-connection") = "close" then
    { w with closed := sock :: w.closed }
  else ConnectionPool.set w scheme host port sock t

/-- C9: after a response whose `Connection` (or `Proxy-Connection`)
header equals `close` on a reused pooled socket, the socket is recorded
closed but the pool still returns it for the same authority (the entry
was never removed). -/
theorem connection_close_leaves_stale_pool_entry
    (w : PoolWorld) (scheme host : String) (port : Nat) (sock : Nat)
    (headers : List (String × String)) (t : Nat)
    (hpool : ConnectionPool.get w scheme host port = some sock)
    (hclose : lowerAscii (hgetD headers "connection") = "close"
      ∨ lowerAscii (hgetD headers "proxy-connection") = "close") :
    ConnectionPool.get (connDisposition w scheme host port sock headers t)
        scheme host port = some sock ∧
    sock ∈ (connDisposition w scheme host port sock headers t).closed := by
  unfold connDisposition
  rw [if_pos hclose]
  exact ⟨hpool, List.mem_cons_self _ _⟩

/-- C9 witness: socket 3 pooled for `(http, h, 80)`, once with response
headers `Connection: close` and once with only `Proxy-Connection: close`. -/
theorem connection_close_leaves_stale_pool_entry_witness :
    (ConnectionPool.get
        (connDisposition ⟨[(("http", "h", 80), (3, 0))], []⟩ "http" "h" 80 3
          [("connection", "close")] 9) "http" "h" 80 = some 3 ∧
      3 ∈ (connDisposition ⟨[(("http", "h", 80), (3, 0))], []⟩ "http" "h" 80 3
          [("connection", "close")] 9).closed) ∧
    (ConnectionPool.get
        (connDisposition ⟨[(("http", "h", 80), (3, 0))], []⟩ "http" "h" 80 3
          [("proxy-connection", "close")] 9) "http" "h" 80 = some 3 ∧
      3 ∈ (connDisposition ⟨[(("http", "h", 80), (3, 0))], []⟩ "http" "h" 80 3
          [("proxy-connection", "close")] 9).closed) :=
  ⟨connection_close_leaves_stale_pool_entry ⟨[(("http", "h", 80), (3, 0))], []⟩
      "http" "h" 80 3 [("connection", "close")] 9 (by decide) (Or.inl (by decide)),
   connection_close_leaves_stale_pool_entry ⟨[(("http", "h", 80), (3, 0))], []⟩
      "http" "h" 80 3 [("proxy-connection", "close")] 9 (by decide) (Or.inr (by decide))⟩

/-!
## Cache-Control handling in `URL.fetch` (`tiny_browser.py` lines 218-237)
-/

/-- Python `cc.split(',')`: split at every comma, empty parts kept. -/
def splitComma : List Char → List (List Char)
  | [] => [[]]
  | c :: rest =>
    if c = ',' then [] :: splitComma rest
    else
      match splitComma rest with
      | [] => [[c]]
      | h :: t => (c :: h) :: t

/-- Python `s.split(sep, 1)`: `none` when the separator is absent
(unpacking then raises `ValueError`), else the parts before and after
its first occurrence. -/
def splitFirst (sep : Char) : List Char → Option (List Char × List Char)
  | [] => none
  | c :: rest =>
    if c = sep then some ([], rest)
    else
      match splitFirst sep rest with
      | none => none
      | some (a, b) => some (c :: a, b)

/-- Python substring test `needle in hay`. -/
def hasSubstrC (needle hay : List Char) : Bool :=
  hay.tails.any (fun t => needle.isPrefixOf t)

/-- Python `p.startswith("max-age")`. -/
def isMaxAgePart (p : List Char) : Bool := ("max-age".data).isPrefixOf p

/-- The `for p in parts` loop computing `max_age` (lines 230-234),
with the exception semantics of the surrounding `try`: a part whose name
starts with `max-age` but has no `=` or a non-integer value raises,
which the `except` turns into `max_age = None` (aborting the loop);
otherwise the last such part's value wins. -/
def maxAgeLoop (acc : Option Int) : List (List Char) → Option Int
  | [] => acc
  | p :: rest =>
    if isMaxAgePart p then
      match splitFirst '=' p with
      | none => none
      | some q =>
        match parsePyDecInt q.2 with
        | none => none
        | some n => maxAgeLoop (some n) rest
    else maxAgeLoop acc rest

/-- `max_age` as computed by `URL.fetch`: `None` unless the substring
`max-age` occurs in the Cache-Control value, else the loop above over
the stripped comma-separated parts. -/
def computeMaxAge (cc : List Char) : Option Int :=
  if hasSubstrC ("max-age".data) cc then
    maxAgeLoop none ((splitComma cc).map stripChars)
  else none

/-- Cache population step of `URL.fetch` (lines 218-237): store only on
status 200 without `no-store` in Cache-Control, with the computed
`max_age`. -/
def cacheAfterResponse (status : Int) (headers : List (String × String))
    (url : String) (body : List Nat) (cache : SimpleCache) (t : Nat) : SimpleCache :=
  let cc := hgetD headers "cache-control"
  if status = 200 then
    if hasSubstrC ("no-store".data) cc.data then cache
    else SimpleCache.set cache url body (computeMaxAge cc.data) t
  else cache

/-- The integer value carried by a `max-age`-prefixed part, if any. -/
def maxAgePartVal (p : List Char) : Option Int :=
  match splitFirst '=' p with
  | none => none
  | some q => parsePyDecInt q.2

/-- Declarative reading of the amended C7: among the stripped
comma-separated parts of Cache-Control, consider those whose name starts
with `max-age`; if any of them carries no parseable integer the entry
gets no expiry, otherwise the last such part's value is the expiry
window; with no such part (in particular no `max-age` substring at all)
the entry gets no expiry. -/
def maxAgeDirectiveSpec (cc : List Char) : Option Int :=
  if hasSubstrC ("max-age".data) cc then
    let matching := ((splitComma cc).map stripChars).filter isMaxAgePart
    if matching.any (fun p => (maxAgePartVal p).isNone) then none
    else
      match matching.getLast? with
      | none => none
      | some p => maxAgePartVal p
  else none

theorem maxAgeLoop_spec :
    ∀ (parts : List (List Char)) (acc : Option Int),
      maxAgeLoop acc parts
        = (if (parts.filter isMaxAgePart).any (fun p => (maxAgePartVal p).isNone) then none
           else
             match (parts.filter isMaxAgePart).getLast? with
             | none => acc
             | some p => maxAgePartVal p) := by
  intro parts
  induction parts with
  | nil => intro acc; simp [maxAgeLoop]
  | cons p rest ih =>
    intro acc
    rw [maxAgeLoop.eq_def]
    by_cases hp : isMaxAgePart p
    · simp only [hp, if_true, List.filter_cons, List.any_cons]
      rcases hq : splitFirst '=' p with _ | q
      · have hbad : (maxAgePartVal p).isNone = true := by
          simp [maxAgePartVal, hq]
        simp only [hbad, Bool.true_or, if_true]
      · rcases hv : parsePyDecInt q.2 with _ | n
        · have hbad : (maxAgePartVal p).isNone = true := by
            simp [maxAgePartVal, hq, hv]
          simp only [hv, hbad, Bool.true_or, if_true]
        · have hgood : maxAgePartVal p = some n := by
            simp [maxAgePartVal, hq, hv]
          simp only [hv]
          rw [ih (some n)]
          simp only [hgood, Option.isNone_some, Bool.false_or]
          rcases hfr : (rest.filter isMaxAgePart) with _ | ⟨f0, fr⟩
          · simp [hgood]
          · rw [List.getLast?_cons_cons]
            cases hgl : (f0 :: fr).getLast? with
            | none => simp at hgl
            | some g => rfl
    · have hp' : isMaxAgePart p = false := eq_false_of_ne_true hp
      simp only [hp', Bool.false_eq_true, if_false, List.filter_cons]
      exact ih acc

/-- C7 counterexample: with `Cache-Control: max-agenda=7` (which holds no
`max-age` directive — the only part's name is `max-agenda`), a 200
response is stored with expiry window 7 seconds, not with no expiry as
the claim requires. -/
theorem cache_population_counterexample :
    dictGet (cacheAfterResponse 200 [("cache-control", "max-agenda=7")] "u" [1] ⟨[]⟩ 0).store "u"
      = some ([1], 0, some 7) ∧
    ((splitComma ("max-agenda=7".data)).map stripChars).any
      (fun p => ((splitFirst '=' p).map (fun q => stripChars q.1 == "max-age".data)).getD false)
      = false := by
  decide

/-- C7 (amended): a response is stored in the cache if and only if its
status is 200 and Cache-Control does not contain `no-store`; the stored
expiry window is the last comma-separated part whose name starts with
`max-age` (not only the exact `max-age` directive), provided every such
part parses; if any such part lacks `=` or an integer value, or none
exists, the entry is stored with no expiry. -/
theorem cache_population_amended (status : Int) (headers : List (String × String))
    (url : String) (body : List Nat) (cache : SimpleCache) (t : Nat) :
    (status = 200 ∧ hasSubstrC ("no-store".data) (hgetD headers "cache-control").data = false →
      cacheAfterResponse status headers url body cache t
        = SimpleCache.set cache url body
            (maxAgeDirectiveSpec (hgetD headers "cache-control").data) t) ∧
    (¬ (status = 200 ∧ hasSubstrC ("no-store".data) (hgetD headers "cache-control").data = false) →
      cacheAfterResponse status headers url body cache t = cache) := by
  have hbridge : ∀ cc : List Char, computeMaxAge cc = maxAgeDirectiveSpec cc := by
    intro cc
    unfold computeMaxAge maxAgeDirectiveSpec
    split
    · rw [maxAgeLoop_spec]
    · rfl
  constructor
  · rintro ⟨h200, hns⟩
    unfold cacheAfterResponse
    rw [if_pos h200, if_neg (by rw [hns]; exact Bool.false_ne_true), hbridge]
  · intro h
    unfold cacheAfterResponse
    by_cases h200 : status = 200
    · rw [if_pos h200, if_pos]
      by_cases hns : hasSubstrC ("no-store".data) (hgetD headers "cache-control").data = true
      · exact hns
      · exact absurd ⟨h200, by simpa using hns⟩ h
    · rw [if_neg h200]

/-- C7 amended witness: `Cache-Control: max-age=5` stores the body with
a 5-second expiry window; a 404 stores nothing. -/
theorem cache_population_amended_witness :
    cacheAfterResponse 200 [("cache-control", "max-age=5")] "u" [2] ⟨[]⟩ 0
      = SimpleCache.set ⟨[]⟩ "u" [2] (some 5) 0 ∧
    cacheAfterResponse 404 [("cache-control", "max-age=5")] "u" [2] ⟨[]⟩ 0 = ⟨[]⟩ := by
  constructor
  · rw [(cache_population_amended 200 [("cache-control", "max-age=5")] "u" [2] ⟨[]⟩ 0).1
      ⟨rfl, by decide⟩]
    decide
  · exact (cache_population_amended 404 [("cache-control", "max-age=5")] "u" [2] ⟨[]⟩ 0).2
      (by rintro ⟨h, _⟩; exact absurd h (by decide))

/-!
## `URL._handle_data_url` (`tiny_browser.py` lines 266-292)
-/

/-- UTF-8 encoding of one Unicode scalar (`str.encode("utf8")`). -/
def charUtf8 (c : Char) : List Nat :=
  let n := c.toNat
  if n < 128 then [n]
  else if n < 2048 then [192 + n / 64, 128 + n % 64]
  else if n < 65536 then [224 + n / 4096, 128 + n / 64 % 64, 128 + n % 64]
  else [240 + n / 262144, 128 + n / 4096 % 64, 128 + n / 64 % 64, 128 + n % 64]

def isHexDigitC (c : Char) : Bool :=
  ('0' ≤ c && c ≤ '9') || ('a' ≤ c && c ≤ 'f') || ('A' ≤ c && c ≤ 'F')

def hexValC (c : Char) : Nat :=
  if c ≤ '9' then c.toNat - 48 else if c ≤ 'F' then c.toNat - 55 else c.toNat - 87

/-- Modelled from the spec: percent-decoding followed by UTF-8 encoding
(`unquote(data).encode("utf8")`; `urllib.parse.unquote` is standard
library, not part of this repository).  A valid `%XX` escape contributes
the byte `0xXX`; any other character contributes its UTF-8 bytes. -/
def percentDecode : List Char → List Nat
  | [] => []
  | '%' :: a :: b :: rest =>
    if isHexDigitC a && isHexDigitC b then
      (16 * hexValC a + hexValC b) :: percentDecode rest
    else charUtf8 '%' ++ percentDecode (a :: b :: rest)
  | c :: rest => charUtf8 c ++ percentDecode rest

def b64Val (c : Char) : Option Nat :=
  if 'A' ≤ c && c ≤ 'Z' then some (c.toNat - 65)
  else if 'a' ≤ c && c ≤ 'z' then some (c.toNat - 71)
  else if '0' ≤ c && c ≤ '9' then some (c.toNat + 4)
  else if c = '+' then some 62
  else if c = '/' then some 63
  else none

/-- Modelled from the spec: RFC 4648 base64 decoding (`base64.b64decode`,
standard library, not part of this repository), defined on well-formed
groups of four alphabet characters with `=` padding; a malformed group
ends the decode. -/
def b64decode : List Char → List Nat
  | c1 :: c2 :: c3 :: c4 :: rest =>
    (match b64Val c1, b64Val c2 with
     | some v1, some v2 =>
       let b1 := 4 * v1 + v2 / 16
       if c3 = '=' then [b1]
       else
         match b64Val c3 with
         | some v3 =>
           let b2 := 16 * (v2 % 16) + v3 / 4
           if c4 = '=' then [b1, b2]
           else
             match b64Val c4 with
             | some v4 => b1 :: b2 :: (64 * (v3 % 4) + v4) :: b64decode rest
             | none => []
         | none => []
     | _, _ => [])
  | _ => []

/-- `URL._handle_data_url`: `none` models the `assert` failing on a
non-`data:` URL.  A missing `,` yields an empty body; `;base64` in the
metadata selects base64 decoding of the payload; otherwise the payload
is percent-decoded and UTF-8 encoded.  (The mediatype is informational
only; removing `;base64` from it does not affect the bytes.) -/
def handle_data_url (raw : List Char) : Option (List Nat) :=
  if ("data:".data).isPrefixOf raw then
    let body := raw.drop 5
    match splitFirst ',' body with
    | none => some []
    | some md =>
      if hasSubstrC (";base64".data) md.1 then some (b64decode md.2)
      else some (percentDecode md.2)
  else none

theorem isPrefixOf_append_self (a b : List Char) : a.isPrefixOf (a ++ b) = true := by
  induction a with
  | nil => simp [List.isPrefixOf]
  | cons c cs ih => simp [List.isPrefixOf, ih]

theorem splitFirst_eq_none {sep : Char} (l : List Char) (h : sep ∉ l) :
    splitFirst sep l = none := by
  induction l with
  | nil => rfl
  | cons c cs ih =>
    have hc : ¬ (c = sep) := fun hc => h (hc ▸ List.mem_cons_self _ _)
    rw [splitFirst.eq_def]
    simp only [if_neg hc]
    rw [ih (fun hm => h (List.mem_cons_of_mem _ hm))]

theorem splitFirst_append {sep : Char} (a b : List Char) (h : sep ∉ a) :
    splitFirst sep (a ++ sep :: b) = some (a, b) := by
  induction a with
  | nil => simp [splitFirst]
  | cons c cs ih =>
    have hc : ¬ (c = sep) := fun hc => h (hc ▸ List.mem_cons_self _ _)
    rw [List.cons_append, splitFirst.eq_def]
    simp only [if_neg hc]
    rw [ih (fun hm => h (List.mem_cons_of_mem _ hm))]

/-- C8: data-URL decoding.  No `,` in the body yields an empty byte
body; with a comma, `;base64` in the metadata selects base64 decoding of
the payload and otherwise the payload is percent-decoded into UTF-8
bytes; in particular `data:,Hello%20World` decodes to the bytes of
`Hello World` and `data:text/html;base64,aGk=` to the bytes of `hi`. -/
theorem data_url_decoding :
    (∀ rest : List Char, (',' ∉ rest) →
      handle_data_url ("data:".data ++ rest) = some []) ∧
    (∀ meta payload : List Char, (',' ∉ meta) →
      hasSubstrC (";base64".data) meta = true →
      handle_data_url ("data:".data ++ meta ++ ',' :: payload) = some (b64decode payload)) ∧
    (∀ meta payload : List Char, (',' ∉ meta) →
      hasSubstrC (";base64".data) meta = false →
      handle_data_url ("data:".data ++ meta ++ ',' :: payload) = some (percentDecode payload)) ∧
    handle_data_url ("data:,Hello%20World".data)
      = some [72, 101, 108, 108, 111, 32, 87, 111, 114, 108, 100] ∧
    handle_data_url ("data:text/html;base64,aGk=".data) = some [104, 105] := by
  refine ⟨?_, ?_, ?_, by decide, by decide⟩
  · intro rest h
    unfold handle_data_url
    rw [if_pos (isPrefixOf_append_self _ _)]
    have hdrop : ("data:".data ++ rest).drop 5 = rest := rfl
    rw [hdrop]
    dsimp only
    rw [splitFirst_eq_none rest h]
  · intro meta payload h hb
    unfold handle_data_url
    rw [show ("data:".data ++ meta ++ ',' :: payload)
        = "data:".data ++ (meta ++ ',' :: payload) by simp]
    rw [if_pos (isPrefixOf_append_self _ _)]
    have hdrop : ("data:".data ++ (meta ++ ',' :: payload)).drop 5 = meta ++ ',' :: payload := rfl
    rw [hdrop]
    dsimp only
    rw [splitFirst_append meta payload h]
    simp only [hb, if_true]
  · intro meta payload h hb
    unfold handle_data_url
    rw [show ("data:".data ++ meta ++ ',' :: payload)
        = "data:".data ++ (meta ++ ',' :: payload) by simp]
    rw [if_pos (isPrefixOf_append_self _ _)]
    have hdrop : ("data:".data ++ (meta ++ ',' :: payload)).drop 5 = meta ++ ',' :: payload := rfl
    rw [hdrop]
    dsimp only
    rw [splitFirst_append meta payload h]
    simp only [hb, Bool.false_eq_true, if_false]

/-- C8 witness: a comma-less data URL gives the empty body; a
`;base64` metadata routes the payload through base64. -/
theorem data_url_decoding_witness :
    handle_data_url ("data:".data ++ "text/plain".data) = some [] ∧
    handle_data_url ("data:".data ++ "text/html;base64".data ++ ',' :: "aGk=".data)
      = some (b64decode ("aGk=".data)) :=
  ⟨data_url_decoding.1 ("text/plain".data) (by decide),
   data_url_decoding.2.1 ("text/html;base64".data) ("aGk=".data) (by decide) (by decide)⟩

/-!
## The redirect loop of `URL.fetch` (`tiny_browser.py` lines 184-245)
-/

/-- The transport's result as `fetch` consumes it: status code, parsed
headers (names lower-cased), body bytes. -/
structure HttpResp where
  status : Int
  headers : List (String × String)
  body : List Nat
deriving DecidableEq

/-- Observable output of one `fetch`: printed lines and raw byte dumps
(`_show_raw_bytes`). -/
inductive TraceItem
  | info (s : String)
  | showRaw (b : List Nat)
deriving DecidableEq

/-- Normal return value or abnormal termination of `fetch`:
`value none` is a bare `return`, `value (some s)` returns the decoded
text, `nameError` is the uncaught `NameError` on reading the unassigned
`response_content` local. -/
inductive FetchOut
  | value (v : Option String)
  | nameError
  | fuelOut
deriving DecidableEq

/-- The `while True` redirect loop.  `server` abstracts
`URL._http_request` (`none` models its `None` returns), `uj` abstracts
`urllib.parse.urljoin` (standard library), `dec` abstracts
`bytes.decode("utf8", errors="replace")`, `vs` is `view_source_mode`,
`redirects` the running hop counter.  The source's `if not loc:` test is
falsy on Python strings, so a missing or empty `Location` value both
take the `redirect with no Location` error return.  The local
`response_content` is assigned only on non-view-source display paths, so
every `return response_content` reached with `vs = true` raises
`NameError`.
One fuel unit is spent per loop pass; the hop-counter check bounds the
passes by `maxR + 2`, so the `fuelOut` leg is unreachable from
`fetchHttp`. -/
def httpLoop (server : String → Option HttpResp) (uj : String → String → String)
    (dec : List Nat → String) (maxR : Nat) (vs : Bool) (t : Nat) :
    Nat → Nat → SimpleCache → String → FetchOut × SimpleCache × List TraceItem
  | 0, _, cache, _ => (.fuelOut, cache, [])
  | fuel + 1, redirects, cache, url =>
    if redirects > maxR then (.value none, cache, [.info "[error] Too many redirects"])
    else
      match SimpleCache.get cache url t with
      | (some body, cache2) =>
        if vs then (.nameError, cache2, [.info ("[cache] HIT for " ++ url), .showRaw body])
        else (.value (some (dec body)), cache2, [.info ("[cache] HIT for " ++ url)])
      | (none, cache2) =>
        match server url with
        | none => (.value none, cache2, [])
        | some r =>
          if 300 ≤ r.status ∧ r.status < 400 then
            match dictGet r.headers "location" with
            | none => (.value none, cache2, [.info "[error] redirect with no Location"])
            | some loc =>
              if loc = "" then
                (.value none, cache2, [.info "[error] redirect with no Location"])
              else
                let u2 := uj url loc
                let res := httpLoop server uj dec maxR vs t fuel (redirects + 1) cache2 u2
                (res.1, res.2.1,
                  .info ("[redirect] " ++ toString r.status ++ " -> " ++ u2) :: res.2.2)
          else
            let cache3 := cacheAfterResponse r.status r.headers url r.body cache2 t
            if vs then (.nameError, cache3, [.showRaw r.body])
            else (.value (some (dec r.body)), cache3, [])

/-- The http(s) branch of `URL.fetch`: the loop entered with
`redirects = 0` and enough fuel that the hop bound always fires first. -/
def fetchHttp (server : String → Option HttpResp) (uj : String → String → String)
    (dec : List Nat → String) (maxR : Nat) (vs : Bool) (t : Nat)
    (cache : SimpleCache) (url : String) : FetchOut × SimpleCache × List TraceItem :=
  httpLoop server uj dec maxR vs t (maxR + 2) 0 cache url

/-- A `k`-hop redirect chain under `server`: each hop `u i` (`i < k`)
answers a 3xx with a nonempty `Location` that resolves to `u (i+1)`. -/
def RedirectChain (server : String → Option HttpResp) (uj : String → String → String)
    (u : Nat → String) (r : Nat → HttpResp) (loc : Nat → String) (k : Nat) : Prop :=
  ∀ i, i < k → server (u i) = some (r i) ∧ 300 ≤ (r i).status ∧ (r i).status < 400 ∧
    dictGet (r i).headers "location" = some (loc i) ∧ loc i ≠ "" ∧
    uj (u i) (loc i) = u (i + 1)

theorem httpLoop_chain_resolves (server : String → Option HttpResp)
    (uj : String → String → String) (dec : List Nat → String) (maxR t : Nat)
    (fin : HttpResp) (hfin3 : ¬ (300 ≤ fin.status ∧ fin.status < 400)) :
    ∀ (n red fuel : Nat) (u : Nat → String) (r : Nat → HttpResp) (loc : Nat → String),
      RedirectChain server uj u r loc n → server (u n) = some fin →
      red + n ≤ maxR → n < fuel →
      (httpLoop server uj dec maxR false t fuel red ⟨[]⟩ (u 0)).1
        = .value (some (dec fin.body)) := by
  intro n
  induction n with
  | zero =>
    intro red fuel u r loc _ hfin hred hfuel
    obtain ⟨f, rfl⟩ : ∃ f, fuel = f + 1 := ⟨fuel - 1, by omega⟩
    have hcg : SimpleCache.get ⟨[]⟩ (u 0) t = (none, ⟨[]⟩) := rfl
    rw [httpLoop.eq_def]
    simp only [if_neg (show ¬ (red > maxR) by omega), hcg, hfin, if_neg hfin3]
    rfl
  | succ m ih =>
    intro red fuel u r loc hchain hfin hred hfuel
    obtain ⟨f, rfl⟩ : ∃ f, fuel = f + 1 := ⟨fuel - 1, by omega⟩
    obtain ⟨hs0, h300, h400, hloc0, hlocne, hjoin⟩ := hchain 0 (by omega)
    have ihh := ih (red + 1) f (fun i => u (i + 1)) (fun i => r (i + 1))
      (fun i => loc (i + 1))
      (fun i hi => hchain (i + 1) (by omega))
      hfin (by omega) (by omega)
    have hcg : SimpleCache.get ⟨[]⟩ (u 0) t = (none, ⟨[]⟩) := rfl
    rw [httpLoop.eq_def]
    simp only [if_neg (show ¬ (red > maxR) by omega), hcg, hs0,
      if_pos (show 300 ≤ (r 0).status ∧ (r 0).status < 400 from ⟨h300, h400⟩), hloc0,
      if_neg hlocne, hjoin]
    simpa using ihh

theorem httpLoop_chain_exceeds (server : String → Option HttpResp)
    (uj : String → String → String) (dec : List Nat → String) (maxR t : Nat) :
    ∀ (fuel red n : Nat) (u : Nat → String) (r : Nat → HttpResp) (loc : Nat → String),
      RedirectChain server uj u r loc n →
      maxR < red + n → red ≤ maxR + 1 → maxR + 2 ≤ red + fuel →
      ∃ pre, httpLoop server uj dec maxR false t fuel red ⟨[]⟩ (u 0)
        = (.value none, ⟨[]⟩, pre ++ [.info "[error] Too many redirects"]) := by
  intro fuel
  induction fuel with
  | zero =>
    intro red n u r loc _ _ hred2 hfuel
    omega
  | succ f ih =>
    intro red n u r loc hchain hred hred2 hfuel
    by_cases hstop : red > maxR
    · refine ⟨[], ?_⟩
      rw [httpLoop.eq_def]
      simp only [if_pos hstop]
      rfl
    · obtain ⟨m, rfl⟩ : ∃ m, n = m + 1 := ⟨n - 1, by omega⟩
      obtain ⟨hs0, h300, h400, hloc0, hlocne, hjoin⟩ := hchain 0 (by omega)
      obtain ⟨pre, hpre⟩ := ih (red + 1) m (fun i => u (i + 1)) (fun i => r (i + 1))
        (fun i => loc (i + 1)) (fun i hi => hchain (i + 1) (by omega))
        (by omega) (by omega) (by omega)
      refine ⟨.info ("[redirect] " ++ toString (r 0).status ++ " -> " ++ u 1) :: pre, ?_⟩
      have hcg : SimpleCache.get ⟨[]⟩ (u 0) t = (none, ⟨[]⟩) := rfl
      rw [httpLoop.eq_def]
      simp only [if_neg hstop, hcg, hs0,
        if_pos (show 300 ≤ (r 0).status ∧ (r 0).status < 400 from ⟨h300, h400⟩), hloc0,
        if_neg hlocne, hjoin]
      simp only [show u (0 + 1) = u 1 from rfl] at *
      rw [hpre]
      simp

/-- C6: with the engine's cache empty, a redirect chain of `k` hops
followed by a 200 answer resolves to the final body when
`k <= max_redirects`; when `k > max_redirects` the fetch terminates (no
fuel exhaustion) with the bare-`None` return and the distinct
`[error] Too many redirects` diagnostic as its last output. -/
theorem redirect_bound (server : String → Option HttpResp)
    (uj : String → String → String) (dec : List Nat → String) (maxR t : Nat)
    (u : Nat → String) (r : Nat → HttpResp) (loc : Nat → String) (k : Nat)
    (fin : HttpResp) (hchain : RedirectChain server uj u r loc k)
    (hfin : server (u k) = some fin) (hst : fin.status = 200) :
    (k ≤ maxR →
      (fetchHttp server uj dec maxR false t ⟨[]⟩ (u 0)).1
        = .value (some (dec fin.body))) ∧
    (maxR < k →
      ∃ pre, fetchHttp server uj dec maxR false t ⟨[]⟩ (u 0)
        = (.value none, ⟨[]⟩, pre ++ [.info "[error] Too many redirects"])) := by
  have hfin3 : ¬ (300 ≤ fin.status ∧ fin.status < 400) := by
    rw [hst]; rintro ⟨h, _⟩; omega
  constructor
  · intro hk
    exact httpLoop_chain_resolves server uj dec maxR t fin hfin3 k 0 (maxR + 2)
      u r loc hchain hfin (by omega) (by omega)
  · intro hk
    exact httpLoop_chain_exceeds server uj dec maxR t (maxR + 2) 0 k
      u r loc hchain (by omega) (by omega) (by omega)

/-- C6 witness: a one-hop chain `a -> b` resolves under the default
bound 10 and exceeds the bound 0. -/
theorem redirect_bound_witness :
    (fetchHttp
        (fun s => if s = "a" then some ⟨301, [("location", "b")], []⟩
          else if s = "b" then some ⟨200, [], [9]⟩ else none)
        (fun _ l => l) (fun _ => "done") 10 false 0 ⟨[]⟩ "a").1
      = FetchOut.value (some "done") ∧
    ∃ pre, fetchHttp
        (fun s => if s = "a" then some ⟨301, [("location", "b")], []⟩
          else if s = "b" then some ⟨200, [], [9]⟩ else none)
        (fun _ l => l) (fun _ => "done") 0 false 0 ⟨[]⟩ "a"
      = (.value none, ⟨[]⟩, pre ++ [.info "[error] Too many redirects"]) := by
  constructor
  · exact (redirect_bound
      (fun s => if s = "a" then some ⟨301, [("location", "b")], []⟩
        else if s = "b" then some ⟨200, [], [9]⟩ else none)
      (fun _ l => l) (fun _ => "done") 10 0
      (fun i => if i = 0 then "a" else "b")
      (fun _ => ⟨301, [("location", "b")], []⟩) (fun _ => "b") 1
      ⟨200, [], [9]⟩
      (by
        intro i hi
        have hi0 : i = 0 := by omega
        subst hi0
        exact ⟨by decide, by decide, by decide, by decide, by decide, by decide⟩)
      (by decide) rfl).1 (by omega)
  · exact (redirect_bound
      (fun s => if s = "a" then some ⟨301, [("location", "b")], []⟩
        else if s = "b" then some ⟨200, [], [9]⟩ else none)
      (fun _ l => l) (fun _ => "done") 0 0
      (fun i => if i = 0 then "a" else "b")
      (fun _ => ⟨301, [("location", "b")], []⟩) (fun _ => "b") 1
      ⟨200, [], [9]⟩
      (by
        intro i hi
        have hi0 : i = 0 := by omega
        subst hi0
        exact ⟨by decide, by decide, by decide, by decide, by decide, by decide⟩)
      (by decide) rfl).2 (by omega)

/-- C10: a fetch in view-source mode of a URL whose body is a (fresh)
cache entry prints the cached bytes (`showRaw`) after the cache-HIT
line, and then terminates in the uncaught `NameError` raised by
`return response_content`, whose assignment only the non-view-source
branch performs. -/
theorem viewsource_cache_hit_nameError (server : String → Option HttpResp)
    (uj : String → String → String) (dec : List Nat → String) (maxR t : Nat)
    (cache cache2 : SimpleCache) (url : String) (body : List Nat)
    (hhit : SimpleCache.get cache url t = (some body, cache2)) :
    fetchHttp server uj dec maxR true t cache url
      = (.nameError, cache2, [.info ("[cache] HIT for " ++ url), .showRaw body]) := by
  unfold fetchHttp
  rw [httpLoop.eq_def]
  simp only [if_neg (show ¬ (0 > maxR) by omega), hhit]
  rw [if_pos trivial]

/-- C10 witness: the cache holds `[1, 2]` for url `u` with no expiry;
view-source fetch raises `NameError` after dumping the bytes. -/
theorem viewsource_cache_hit_nameError_witness :
    fetchHttp (fun _ => none) (fun _ l => l) (fun _ => "") 10 true 0
        ⟨[("u", ([1, 2], 0, none))]⟩ "u"
      = (.nameError, ⟨[("u", ([1, 2], 0, none))]⟩,
         [.info ("[cache] HIT for " ++ "u"), .showRaw [1, 2]]) :=
  viewsource_cache_hit_nameError (fun _ => none) (fun _ l => l) (fun _ => "") 10 0
    ⟨[("u", ([1, 2], 0, none))]⟩ ⟨[("u", ([1, 2], 0, none))]⟩ "u" [1, 2] (by decide)

end TinyBrowser
